import Mathlib

/-!
Verification of the PriFi core (dedis/prifi) against its specification.

The Go sources are shallowly embedded: byte slices become `List Nat`
(each element a byte value, XOR is `Nat.xor`), Go maps become functions
with the zero-value default, fallible code returns `Except String`, and
`panic` paths are embedded as errors.  Crypto primitives absent from the
sources (the kyber suite, the equivocation decoder) are either taken as
parameters or modelled from the spec, as marked in the doc comments.
-/

namespace PriFi

/-- A Go byte slice: a list of byte values. -/
abbrev Bytes := List Nat

/-- `make([]byte, n)` : the all-zero slice of length `n`. -/
def zeros (n : Nat) : Bytes := List.replicate n 0

/-- Pointwise XOR of two slices, over the indices both have
(the Go loops below only ever XOR slices of equal length). -/
def xorB (a b : Bytes) : Bytes := List.zipWith Nat.xor a b

/-- Go's `copy(dst, src)` followed by returning `dst`: the prefix of `dst`
is overwritten by `src`, truncated to `dst`'s length. -/
def goCopyInto (dst src : Bytes) : Bytes :=
  src.take dst.length ++ dst.drop src.length

/-- The DC-net pad loop `for i := range p_ij { for k { c.payload[k] ^= p_ij[i][k] } }`
from `clientEncode` / `trusteeEncode` (src/unnamed/part_002). -/
def applyPads (pads : List Bytes) (c : Bytes) : Bytes :=
  pads.foldl (fun acc p => xorB acc p) c

/-- `clientEncode` (src/unnamed/part_002, lines 177-218), with equivocation and
disruption protection disabled: a `nil` payload becomes the zero cell, a
non-nil payload is deep-cloned into a fresh buffer of length
`GetPayloadSize() = DCNetContentSize` (zero-padded), then all per-peer pads
are XORed in.  `L` is `DCNetContentSize`. -/
def clientEncode (L : Nat) (pads : List Bytes) (payload : Option Bytes) : Bytes :=
  let pl : Bytes :=
    match payload with
    | none => zeros L
    | some p => goCopyInto (zeros L) p
  applyPads pads pl

/-- `trusteeEncode` (src/unnamed/part_002, lines 220-246), equivocation
disabled: the zero cell with all per-peer pads XORed in. -/
def trusteeEncode (L : Nat) (pads : List Bytes) : Bytes :=
  applyPads pads (zeros L)

/-- `DecodeStart` (src/unnamed/part_002, lines 249-255): a fresh all-zero
XOR accumulator of length `DCNetContentSize`. -/
def decodeStart (L : Nat) : Bytes := zeros L

/-- The common body of `DecodeClient` / `DecodeTrustee`
(src/unnamed/part_002, lines 258-293): `xorBuffer[i] ^= payload[i]` for every
index of the incoming payload; indices of the buffer beyond the payload are
untouched.  Serialization (`DCNetCipherFromBytes`, not under src/) is the
identity on the payload since without equivocation a cipher carries no tag. -/
def decodeSlice (buf c : Bytes) : Bytes :=
  List.zipWith Nat.xor buf c ++ buf.drop c.length

/-- `DecodeCell` (src/unnamed/part_002, lines 296-315) with equivocation and
disruption protection disabled: returns the XOR accumulator itself. -/
def decodeCellPlain (buf : Bytes) : Bytes := buf

/-- The per-round pads of client `i`: one pad per trustee, drawn from the
PRNG seeded by the secret shared with that trustee. -/
def clientPads (M : Nat) (pad : Nat → Nat → Bytes) (i : Nat) : List Bytes :=
  (List.range M).map (fun j => pad i j)

/-- The per-round pads of trustee `j`: one pad per client, drawn from the
PRNG seeded by the secret shared with that client; pairwise shared secrets
make these bytes identical to the client's `pad i j`. -/
def trusteePads (N : Nat) (pad : Nat → Nat → Bytes) (j : Nat) : List Bytes :=
  (List.range N).map (fun i => pad i j)

/-- The ciphers produced when every client encodes one cell for the round:
client `owner` (when present) encodes payload `P`, every other client
encodes `nil`. -/
def clientCiphers (N M L : Nat) (pad : Nat → Nat → Bytes)
    (owner : Option Nat) (P : Bytes) : List Bytes :=
  (List.range N).map (fun i =>
    clientEncode L (clientPads M pad i) (if owner = some i then some P else none))

/-- The ciphers produced when every trustee encodes one cell for the round. -/
def trusteeCiphers (N M L : Nat) (pad : Nat → Nat → Bytes) : List Bytes :=
  (List.range M).map (fun j => trusteeEncode L (trusteePads N pad j))

/-- The relay pipeline for one round: `DecodeStart`, then `DecodeClient` on
every client cipher and `DecodeTrustee` on every trustee cipher, then
`DecodeCell`. -/
def relayDecodeRound (N M L : Nat) (pad : Nat → Nat → Bytes)
    (owner : Option Nat) (P : Bytes) : Bytes :=
  decodeCellPlain
    ((clientCiphers N M L pad owner P ++ trusteeCiphers N M L pad).foldl
      decodeSlice (decodeStart L))

/-! ### XOR algebra over byte slices -/

theorem length_xorB (a b : Bytes) : (xorB a b).length = min a.length b.length := by
  simp [xorB]

theorem length_zeros (n : Nat) : (zeros n).length = n := by
  simp [zeros]

theorem xorB_comm (a b : Bytes) : xorB a b = xorB b a := by
  induction a generalizing b with
  | nil => cases b <;> simp [xorB]
  | cons x xs ih =>
    cases b with
    | nil => simp [xorB]
    | cons y ys =>
      simp only [xorB, List.zipWith] at *
      exact congrArg₂ List.cons (Nat.xor_comm x y) (ih ys)

theorem xorB_assoc (a b c : Bytes) : xorB (xorB a b) c = xorB a (xorB b c) := by
  induction a generalizing b c with
  | nil => simp [xorB]
  | cons x xs ih =>
    cases b with
    | nil => simp [xorB]
    | cons y ys =>
      cases c with
      | nil => simp [xorB]
      | cons z zs =>
        simp only [xorB, List.zipWith] at *
        exact congrArg₂ List.cons (Nat.xor_assoc x y z) (ih ys zs)

theorem xorB_zeros_right (a : Bytes) (n : Nat) : xorB a (zeros n) = a.take n := by
  induction a generalizing n with
  | nil => simp [xorB]
  | cons x xs ih =>
    cases n with
    | zero => simp [xorB, zeros]
    | succ m =>
      simp only [zeros, List.replicate, xorB, List.zipWith, List.take]
      exact congrArg₂ List.cons (Nat.xor_zero x) (ih m)

theorem xorB_zeros_left (a : Bytes) (n : Nat) : xorB (zeros n) a = a.take n := by
  rw [xorB_comm]; exact xorB_zeros_right a n

theorem xorB_self (a : Bytes) : xorB a a = zeros a.length := by
  induction a with
  | nil => simp [xorB, zeros]
  | cons x xs ih =>
    simp only [xorB, List.zipWith, zeros, List.length_cons, List.replicate] at *
    exact congrArg₂ List.cons (Nat.xor_self x) ih

theorem xorB_self_of_length {a : Bytes} {L : Nat} (h : a.length = L) :
    xorB a a = zeros L := by
  rw [xorB_self, h]

/-- XOR-fold of a list of cells starting from the zero cell. -/
def xorAll (L : Nat) (ls : List Bytes) : Bytes := applyPads ls (zeros L)

theorem applyPads_xorB (ps : List Bytes) (c d : Bytes) :
    applyPads ps (xorB c d) = xorB c (applyPads ps d) := by
  induction ps generalizing d with
  | nil => rfl
  | cons p ps ih =>
    show applyPads ps (xorB (xorB c d) p) = xorB c (applyPads ps (xorB d p))
    rw [xorB_assoc, ih]

theorem applyPads_eq_xorB_xorAll {L : Nat} (ps : List Bytes) {c : Bytes}
    (hc : c.length = L) : applyPads ps c = xorB c (xorAll L ps) := by
  have h1 : c = xorB c (zeros L) := by
    rw [xorB_zeros_right, ← hc, List.take_length]
  conv_lhs => rw [h1]
  exact applyPads_xorB ps c (zeros L)

theorem length_applyPads {L : Nat} {ps : List Bytes} {c : Bytes}
    (hps : ∀ p ∈ ps, p.length = L) (hc : c.length = L) :
    (applyPads ps c).length = L := by
  induction ps generalizing c with
  | nil => exact hc
  | cons p ps ih =>
    have hp : p.length = L := hps p (by simp)
    have : (xorB c p).length = L := by rw [length_xorB, hc, hp, Nat.min_self]
    exact ih (fun q hq => hps q (by simp [hq])) this

theorem length_xorAll {L : Nat} {ps : List Bytes}
    (hps : ∀ p ∈ ps, p.length = L) : (xorAll L ps).length = L :=
  length_applyPads hps (length_zeros L)

theorem xorAll_nil (L : Nat) : xorAll L [] = zeros L := rfl

theorem xorAll_cons {L : Nat} (p : Bytes) (ps : List Bytes) :
    xorAll L (p :: ps) = xorB p (xorAll L ps) := by
  show applyPads ps (xorB (zeros L) p) = xorB p (xorAll L ps)
  have : xorB (zeros L) p = xorB p (zeros L) := xorB_comm _ _
  rw [this, applyPads_xorB]
  rfl

theorem xorAll_append {L : Nat} (l1 l2 : List Bytes)
    (h1 : ∀ p ∈ l1, p.length = L) :
    xorAll L (l1 ++ l2) = xorB (xorAll L l1) (xorAll L l2) := by
  show applyPads (l1 ++ l2) (zeros L) = _
  rw [applyPads, List.foldl_append]
  exact applyPads_eq_xorB_xorAll l2 (length_xorAll h1)

theorem xorAll_singleton {L : Nat} (p : Bytes) (hp : p.length = L) :
    xorAll L [p] = p := by
  rw [xorAll_cons p [], xorAll_nil, xorB_zeros_right, ← hp, List.take_length]

/-- XOR-fold distributes over a pointwise XOR of two families. -/
theorem xorAll_map_xorB {L : Nat} (n : Nat) (a b : Nat → Bytes)
    (ha : ∀ i < n, (a i).length = L) (hb : ∀ i < n, (b i).length = L) :
    xorAll L ((List.range n).map (fun i => xorB (a i) (b i))) =
      xorB (xorAll L ((List.range n).map a)) (xorAll L ((List.range n).map b)) := by
  induction n with
  | zero =>
    simp only [List.range_zero, List.map_nil, xorAll_nil]
    rw [xorB_zeros_right, List.take_of_length_le (by rw [length_zeros])]
  | succ m ih =>
    have ham : ∀ i < m, (a i).length = L := fun i hi => ha i (Nat.lt_succ_of_lt hi)
    have hbm : ∀ i < m, (b i).length = L := fun i hi => hb i (Nat.lt_succ_of_lt hi)
    have haL : (a m).length = L := ha m (Nat.lt_succ_self m)
    have hbL : (b m).length = L := hb m (Nat.lt_succ_self m)
    have habL : ∀ p ∈ (List.range m).map (fun i => xorB (a i) (b i)), p.length = L := by
      intro p hp
      rcases List.mem_map.mp hp with ⟨i, hi, rfl⟩
      have : i < m := List.mem_range.mp hi
      rw [length_xorB, ham i this, hbm i this, Nat.min_self]
    have haML : ∀ p ∈ (List.range m).map a, p.length = L := by
      intro p hp
      rcases List.mem_map.mp hp with ⟨i, hi, rfl⟩
      exact ham i (List.mem_range.mp hi)
    have hbML : ∀ p ∈ (List.range m).map b, p.length = L := by
      intro p hp
      rcases List.mem_map.mp hp with ⟨i, hi, rfl⟩
      exact hbm i (List.mem_range.mp hi)
    rw [List.range_succ, List.map_append, List.map_append,
      List.map_append, xorAll_append _ _ habL, xorAll_append _ _ haML,
      xorAll_append _ _ hbML, ih ham hbm]
    simp only [List.map_cons, List.map_nil]
    rw [xorAll_singleton _ (by rw [length_xorB, haL, hbL, Nat.min_self]),
      xorAll_singleton _ haL, xorAll_singleton _ hbL]
    -- rearrange (A ⊕ B) ⊕ (a ⊕ b) = (A ⊕ a) ⊕ (B ⊕ b)
    rw [xorB_assoc, xorB_assoc]
    congr 1
    rw [← xorB_assoc, ← xorB_assoc]
    congr 1
    exact xorB_comm _ _

/-- XOR-fold of the all-zero family is the zero cell. -/
theorem xorAll_map_zeros (L n : Nat) :
    xorAll L ((List.range n).map (fun _ => zeros L)) = zeros L := by
  induction n with
  | zero => simp [xorAll_nil]
  | succ m ih =>
    rw [List.range_succ, List.map_append, xorAll_append]
    · simp only [List.map_cons, List.map_nil]
      rw [ih, xorAll_singleton _ (length_zeros L), xorB_zeros_right]
      simp [zeros]
    · intro p hpmem
      rcases List.mem_map.mp hpmem with ⟨i, _, rfl⟩
      exact length_zeros L

/-- XOR-fold of a family that is zero except at one index below `n`. -/
theorem xorAll_map_single {L : Nat} (n o : Nat) (ho : o < n) (f : Nat → Bytes)
    (hf0 : ∀ i < n, i ≠ o → f i = zeros L) (hfo : (f o).length = L) :
    xorAll L ((List.range n).map f) = f o := by
  induction n with
  | zero => exact absurd ho (Nat.not_lt_zero o)
  | succ m ih =>
    have hlen : ∀ p ∈ (List.range m).map f, p.length = L := by
      intro p hp
      rcases List.mem_map.mp hp with ⟨i, hi, rfl⟩
      by_cases hio : i = o
      · rw [hio]; exact hfo
      · rw [hf0 i (Nat.lt_succ_of_lt (List.mem_range.mp hi)) hio]
        exact length_zeros L
    rw [List.range_succ, List.map_append, xorAll_append _ _ hlen]
    simp only [List.map_cons, List.map_nil]
    by_cases hom : o = m
    · have hrest : ∀ i < m, f i = zeros L := by
        intro i hi
        exact hf0 i (Nat.lt_succ_of_lt hi) (by omega)
      have : (List.range m).map f = (List.range m).map (fun _ => zeros L) := by
        apply List.map_congr_left
        intro i hi
        exact hrest i (List.mem_range.mp hi)
      rw [this, xorAll_map_zeros, xorAll_singleton _ (by rw [hom] at hfo; exact hfo),
        xorB_zeros_left, hom, ← hfo, hom, List.take_length]
    · have hom2 : o < m := by
        rcases Nat.lt_succ_iff_lt_or_eq.mp ho with h | h
        · exact h
        · exact absurd h hom
      rw [ih hom2 (fun i hi => hf0 i (Nat.lt_succ_of_lt hi)),
        hf0 m (Nat.lt_succ_self m) (fun h => hom (h.symm)),
        xorAll_singleton _ (length_zeros L), xorB_zeros_right, ← hfo, List.take_length]

/-! ### Structure of the encoded ciphers -/

theorem length_goCopyInto_zeros (L : Nat) (p : Bytes) :
    (goCopyInto (zeros L) p).length = L := by
  simp only [goCopyInto, List.length_append, List.length_take, List.length_drop,
    length_zeros]
  omega

theorem goCopyInto_zeros_eq {L : Nat} {p : Bytes} (h : p.length ≤ L) :
    goCopyInto (zeros L) p = p ++ zeros (L - p.length) := by
  simp only [goCopyInto, zeros, List.length_replicate, List.take_of_length_le h,
    List.drop_replicate]

theorem length_clientEncode {L : Nat} {pads : List Bytes} {payload : Option Bytes}
    (hps : ∀ p ∈ pads, p.length = L) :
    (clientEncode L pads payload).length = L := by
  cases payload with
  | none => exact length_applyPads hps (length_zeros L)
  | some p => exact length_applyPads hps (length_goCopyInto_zeros L p)

theorem trusteeEncode_eq_xorAll (L : Nat) (pads : List Bytes) :
    trusteeEncode L pads = xorAll L pads := rfl

theorem decodeSlice_eq_xorB {buf c : Bytes} (h : c.length = buf.length) :
    decodeSlice buf c = xorB buf c := by
  simp [decodeSlice, xorB, h, List.drop_eq_nil_of_le]

theorem foldl_decodeSlice_eq {L : Nat} (ls : List Bytes) (b : Bytes)
    (hls : ∀ c ∈ ls, c.length = L) (hb : b.length = L) :
    ls.foldl decodeSlice b = applyPads ls b := by
  induction ls generalizing b with
  | nil => rfl
  | cons c cs ih =>
    have hc : c.length = L := hls c (by simp)
    have h1 : decodeSlice b c = xorB b c := decodeSlice_eq_xorB (by rw [hc, hb])
    show (c :: cs).foldl decodeSlice b = applyPads cs (xorB b c)
    rw [List.foldl_cons, h1]
    exact ih (xorB b c) (fun d hd => hls d (List.mem_cons_of_mem c hd))
      (by rw [length_xorB, hb, hc, Nat.min_self])

/-- Fubini for XOR-folds: folding the per-client pad rows equals folding the
per-trustee pad columns. -/
theorem xorAll_rows_eq_cols {L : Nat} (N M : Nat) (pad : Nat → Nat → Bytes)
    (hpad : ∀ i j, i < N → j < M → (pad i j).length = L) :
    xorAll L ((List.range N).map (fun i => xorAll L (clientPads M pad i))) =
      xorAll L ((List.range M).map (fun j => xorAll L (trusteePads N pad j))) := by
  induction N with
  | zero =>
    simp only [List.range_zero, List.map_nil, xorAll_nil, trusteePads]
    exact (xorAll_map_zeros L M).symm
  | succ m ih =>
    have hm : ∀ i j, i < m → j < M → (pad i j).length = L :=
      fun i j hi hj => hpad i j (Nat.lt_succ_of_lt hi) hj
    have hrowlen : ∀ i, i < m → (xorAll L (clientPads M pad i)).length = L := by
      intro i hi
      apply length_xorAll
      intro p hp
      rcases List.mem_map.mp hp with ⟨j, hj, rfl⟩
      exact hm i j hi (List.mem_range.mp hj)
    have hrowm : (xorAll L (clientPads M pad m)).length = L := by
      apply length_xorAll
      intro p hp
      rcases List.mem_map.mp hp with ⟨j, hj, rfl⟩
      exact hpad m j (Nat.lt_succ_self m) (List.mem_range.mp hj)
    -- left side: split off the last row
    rw [List.range_succ, List.map_append,
      xorAll_append _ _ (by
        intro p hp
        rcases List.mem_map.mp hp with ⟨i, hi, rfl⟩
        exact hrowlen i (List.mem_range.mp hi))]
    simp only [List.map_cons, List.map_nil]
    rw [xorAll_singleton _ hrowm, ih hm]
    -- right side: each column over `range (m+1)` splits into column over
    -- `range m` XOR the last row's contribution
    have hcol : ∀ j ∈ List.range M,
        xorAll L (trusteePads (m + 1) pad j) =
          xorB (xorAll L (trusteePads m pad j)) (pad m j) := by
      intro j hj
      have hjM : j < M := List.mem_range.mp hj
      simp only [trusteePads]
      rw [List.range_succ, List.map_append,
        xorAll_append _ _ (by
          intro p hp
          rcases List.mem_map.mp hp with ⟨i, hi, rfl⟩
          exact hm i j (List.mem_range.mp hi) hjM)]
      simp only [List.map_cons, List.map_nil]
      rw [xorAll_singleton _ (hpad m j (Nat.lt_succ_self m) hjM)]
    rw [List.map_congr_left hcol,
      xorAll_map_xorB M (fun j => xorAll L (trusteePads m pad j)) (fun j => pad m j)
        (by
          intro j hjM
          apply length_xorAll
          intro p hp
          rcases List.mem_map.mp hp with ⟨i, hi, rfl⟩
          exact hm i j (List.mem_range.mp hi) hjM)
        (fun j hjM => hpad m j (Nat.lt_succ_self m) hjM)]
    rfl

/--
**C1.** For every configuration of `N` clients and `M` trustees with pairwise
shared keystreams `pad i j` (each of the round's pads having `DCNetContentSize`
length `L`), if the slot-owning client `o` encodes payload `P` (of length at
most `L`) while every other client encodes `nil` and every trustee encodes its
cell, then XOR-decoding all `N + M` ciphers at the relay (`DecodeStart`, then
`DecodeClient` / `DecodeTrustee` on each cipher, then `DecodeCell`) yields
exactly the cell the owner encoded — `P` zero-padded to the cell length — for
arbitrary placement `o < N` of the owner; and the all-zero cell when no client
owns the slot.
-/
theorem dcnet_round_roundtrip (N M L : Nat) (pad : Nat → Nat → Bytes)
    (o : Nat) (P : Bytes)
    (hpad : ∀ i j, i < N → j < M → (pad i j).length = L)
    (ho : o < N) (hP : P.length ≤ L) :
    relayDecodeRound N M L pad (some o) P = P ++ zeros (L - P.length) ∧
      relayDecodeRound N M L pad none P = zeros L := by
  have hrowlen : ∀ i, i < N → ∀ p ∈ clientPads M pad i, p.length = L := by
    intro i hi p hp
    rcases List.mem_map.mp hp with ⟨j, hj, rfl⟩
    exact hpad i j hi (List.mem_range.mp hj)
  have hxrowlen : ∀ i, i < N → (xorAll L (clientPads M pad i)).length = L :=
    fun i hi => length_xorAll (hrowlen i hi)
  have hcollen : ∀ j, j < M → ∀ p ∈ trusteePads N pad j, p.length = L := by
    intro j hj p hp
    rcases List.mem_map.mp hp with ⟨i, hi, rfl⟩
    exact hpad i j (List.mem_range.mp hi) hj
  -- generic decomposition of the relay decode for an arbitrary owner option
  have main : ∀ ow : Option Nat, relayDecodeRound N M L pad ow P =
      xorAll L ((List.range N).map (fun i =>
        if ow = some i then goCopyInto (zeros L) P else zeros L)) := by
    intro ow
    have hccl : ∀ c ∈ clientCiphers N M L pad ow P, c.length = L := by
      intro c hc
      rcases List.mem_map.mp hc with ⟨i, hi, rfl⟩
      exact length_clientEncode (hrowlen i (List.mem_range.mp hi))
    have htcl : ∀ c ∈ trusteeCiphers N M L pad, c.length = L := by
      intro c hc
      rcases List.mem_map.mp hc with ⟨j, hj, rfl⟩
      exact length_applyPads (hcollen j (List.mem_range.mp hj)) (length_zeros L)
    have hall : ∀ c ∈ clientCiphers N M L pad ow P ++ trusteeCiphers N M L pad,
        c.length = L := by
      intro c hc
      rcases List.mem_append.mp hc with h | h
      · exact hccl c h
      · exact htcl c h
    unfold relayDecodeRound decodeCellPlain decodeStart
    rw [foldl_decodeSlice_eq _ _ hall (length_zeros L)]
    show xorAll L (clientCiphers N M L pad ow P ++ trusteeCiphers N M L pad) = _
    rw [xorAll_append _ _ hccl]
    -- client ciphers: payload XOR row of pads
    have hcc : clientCiphers N M L pad ow P =
        (List.range N).map (fun i =>
          xorB (if ow = some i then goCopyInto (zeros L) P else zeros L)
            (xorAll L (clientPads M pad i))) := by
      apply List.map_congr_left
      intro i hi
      have hiN : i < N := List.mem_range.mp hi
      unfold clientEncode
      by_cases how : ow = some i
      · simp only [how, if_pos rfl]
        exact applyPads_eq_xorB_xorAll _ (length_goCopyInto_zeros L P)
      · simp only [if_neg how]
        exact applyPads_eq_xorB_xorAll _ (length_zeros L)
    rw [hcc, xorAll_map_xorB N _ _
      (by
        intro i hiN
        by_cases how : ow = some i
        · simp only [how, if_pos rfl]
          exact length_goCopyInto_zeros L P
        · simp only [if_neg how]
          exact length_zeros L)
      hxrowlen]
    -- trustee ciphers are exactly the pad columns
    have htc : trusteeCiphers N M L pad =
        (List.range M).map (fun j => xorAll L (trusteePads N pad j)) := rfl
    rw [htc, xorB_assoc, ← xorAll_rows_eq_cols N M pad hpad,
      xorB_self_of_length (length_xorAll (by
        intro p hp
        rcases List.mem_map.mp hp with ⟨i, hi, rfl⟩
        exact hxrowlen i (List.mem_range.mp hi))),
      xorB_zeros_right,
      List.take_of_length_le (le_of_eq (length_xorAll (by
        intro p hp
        rcases List.mem_map.mp hp with ⟨i, hi, rfl⟩
        by_cases how : ow = some i
        · simp only [how, if_pos rfl]
          exact length_goCopyInto_zeros L P
        · simp only [if_neg how]
          exact length_zeros L)))]
  constructor
  · rw [main (some o),
      xorAll_map_single N o ho _
        (by
          intro i _ hio
          have : ¬ (some o = some i) := by
            intro h
            exact hio (Option.some.inj h).symm
          simp [this])
        (by simp [length_goCopyInto_zeros]),
      if_pos rfl]
    exact goCopyInto_zeros_eq hP
  · rw [main none]
    have : ∀ i ∈ List.range N,
        (if (none : Option Nat) = some i then goCopyInto (zeros L) P else zeros L) =
          zeros L := by
      intro i _
      simp
    rw [List.map_congr_left this, xorAll_map_zeros]

/-- Witness for C1 at a concrete configuration: two clients, one trustee,
cells of two bytes, owner client 0 sending the one-byte payload `[9]`. -/
theorem dcnet_round_roundtrip_witness :
    relayDecodeRound 2 1 2 (fun i j => [i + 2 * j + 1, 5 * i + 7]) (some 0) [9] =
        [9] ++ zeros (2 - List.length [9]) ∧
      relayDecodeRound 2 1 2 (fun i j => [i + 2 * j + 1, 5 * i + 7]) none [9] =
        zeros 2 :=
  dcnet_round_roundtrip 2 1 2 (fun i j => [i + 2 * j + 1, 5 * i + 7]) 0 [9]
    (fun i j _ _ => rfl) (by decide) (by decide)

/-! ## C2: `EncodeForRound`, round skipping and keystream consumption -/

/-- A DC-net client/trustee as `EncodeForRound` observes it
(src/unnamed/part_002, lines 25-45): cell sizes, flags, the round counter,
and — for each per-peer shared PRNG — the number of keystream bytes consumed
so far (each `XORKeyStream` call over an n-byte buffer consumes n bytes).
`equivocationContribLength` is the byte length of a group scalar when
equivocation protection is on (`len(minusOne.Bytes())`, 32 for the configured
suite) and 0 otherwise. -/
structure DCNetEntityState where
  isClient : Bool
  DCNetMessageSize : Nat
  equivocationContribLength : Nat
  disruptionProtectionEnabled : Bool
  currentRound : Int
  prngConsumed : List Nat
  deriving Repr, DecidableEq

/-- `DCNetContentSize = DCNetMessageSize - equivocationContribLength`
(src/unnamed/part_002, line 110). -/
def DCNetContentSize (e : DCNetEntityState) : Nat :=
  e.DCNetMessageSize - e.equivocationContribLength

/-- `GetPayloadSize` (src/unnamed/part_002, lines 121-127): what the slot
owner may embed; 32 bytes less than the content size when disruption
protection is on. -/
def GetPayloadSize (e : DCNetEntityState) : Nat :=
  if e.disruptionProtectionEnabled then DCNetContentSize e - 32
  else DCNetContentSize e

/-- The discard loop of `EncodeForRound` (src/unnamed/part_002, lines
140-151): one execution consumes `DCNetContentSize` bytes from every
per-peer PRNG; `k` iterations run while the counter catches up. -/
def discardRounds (contentSize : Nat) (consumed : List Nat) : Nat → List Nat
  | 0 => consumed
  | k + 1 => discardRounds contentSize (consumed.map (fun c => c + contentSize)) k

/-- `len(payload)` for a Go slice that may be nil. -/
def payloadLen (payload : Option Bytes) : Nat :=
  match payload with
  | none => 0
  | some p => p.length

/-- `EncodeForRound` (src/unnamed/part_002, lines 131-161), tracking the
entity state: panics (embedded as errors) when the payload exceeds
`DCNetContentSize` or the requested round is in the past; otherwise the
discard loop consumes `DCNetContentSize` bytes per peer for every skipped
round and the counter advances to `roundID`.  The encode step then runs:
`clientEncode` deep-clones a non-nil payload into a fresh buffer of
`GetPayloadSize()` bytes and the copy target `payload2[0:len(payload)]`
overruns it when the payload is longer (part_002, lines 184-185) — a Go
slice-bounds panic raised before the round's pads are generated, so no
further keystream is consumed (`trusteeEncode` ignores the payload and
cannot panic).  On the non-panicking paths the encode consumes one
`DCNetContentSize`-byte pad per peer; the cell content itself is modelled
above. -/
def EncodeForRound (e : DCNetEntityState) (roundID : Int) (payload : Option Bytes) :
    Except String DCNetEntityState :=
  if payloadLen payload > DCNetContentSize e then
    Except.error "DCNet: cannot encode payload, too long"
  else if roundID < e.currentRound then
    Except.error "DCNet: asked to encode for a round in the past"
  else
    let skips := (roundID - e.currentRound).toNat
    let afterSkip := discardRounds (DCNetContentSize e) e.prngConsumed skips
    if e.isClient ∧ payloadLen payload > GetPayloadSize e then
      Except.error "slice bounds out of range"
    else
      Except.ok { e with
        currentRound := roundID,
        prngConsumed := afterSkip.map (fun c => c + DCNetContentSize e) }

/-- Whether an embedded call failed (a Go panic). -/
def isError {α : Type} : Except String α → Bool
  | Except.error _ => true
  | Except.ok _ => false

theorem discardRounds_eq_map (cs : Nat) (l : List Nat) (k : Nat) :
    discardRounds cs l k = l.map (fun c => c + k * cs) := by
  induction k generalizing l with
  | zero => simp [discardRounds]
  | succ m ih =>
    rw [discardRounds, ih, List.map_map]
    apply List.map_congr_left
    intro c _
    simp only [Function.comp_apply]
    ring

/--
**C2 (amended).** For every DC-net entity with round counter `r` and every
requested round `r'`: `EncodeForRound(r', payload)` fails when `r' < r`; it
fails when the payload is longer than `DCNetContentSize`; for a client it
also fails — the Go slice-bounds panic in `clientEncode`'s copy into the
`GetPayloadSize()`-byte clone, raised before the round's pads are consumed —
whenever the payload is longer than `GetPayloadSize` (that is
`contentSize - 32` with disruption protection on); and otherwise the discard
loop first consumes and drops exactly `DCNetContentSize` bytes of keystream
from each per-peer PRNG for each of the `r' - r` skipped rounds — so
`(r2 - r1) * contentSize` dropped bytes per peer between rounds `r1 < r2` —
advances the counter to `r'`, and the encode proper consumes one more
`contentSize`-byte pad per peer.  (The claim's "payloadSize bytes per skipped
round" holds only when neither protection reserves bytes; the code always
discards `DCNetContentSize` bytes.)
-/
theorem encodeForRound_cases (e : DCNetEntityState) (roundID : Int)
    (payload : Option Bytes) :
    (roundID < e.currentRound → isError (EncodeForRound e roundID payload) = true) ∧
    (payloadLen payload > DCNetContentSize e →
      isError (EncodeForRound e roundID payload) = true) ∧
    (e.isClient = true → payloadLen payload > GetPayloadSize e →
      isError (EncodeForRound e roundID payload) = true) ∧
    (e.currentRound ≤ roundID → payloadLen payload ≤ DCNetContentSize e →
      ¬ (e.isClient = true ∧ payloadLen payload > GetPayloadSize e) →
      EncodeForRound e roundID payload = Except.ok { e with
        currentRound := roundID,
        prngConsumed := e.prngConsumed.map (fun c =>
          c + (roundID - e.currentRound).toNat * DCNetContentSize e
            + DCNetContentSize e) }) := by
  refine ⟨?_, ?_, ?_, ?_⟩
  · intro hpast
    unfold EncodeForRound
    by_cases hlen : payloadLen payload > DCNetContentSize e
    · rw [if_pos hlen]; rfl
    · rw [if_neg hlen, if_pos hpast]; rfl
  · intro hlen
    unfold EncodeForRound
    rw [if_pos hlen]; rfl
  · intro hcl hover
    unfold EncodeForRound
    by_cases hlen : payloadLen payload > DCNetContentSize e
    · rw [if_pos hlen]; rfl
    · rw [if_neg hlen]
      by_cases hpast : roundID < e.currentRound
      · rw [if_pos hpast]; rfl
      · rw [if_neg hpast, if_pos ⟨hcl, hover⟩]; rfl
  · intro hr hlen hnp
    unfold EncodeForRound
    rw [if_neg (by omega), if_neg (by omega), if_neg hnp]
    simp only [discardRounds_eq_map, List.map_map]
    congr 1

/-- The entity refuting C2 as stated: both protections on,
`DCNetMessageSize = 100`, scalar length 32, so `DCNetContentSize = 68` while
`GetPayloadSize = 36`. -/
def c2Entity : DCNetEntityState :=
  { isClient := true, DCNetMessageSize := 100, equivocationContribLength := 32,
    disruptionProtectionEnabled := true, currentRound := 0, prngConsumed := [0] }

/-- Witness for C2 at concrete entities.  First conjunct: one peer, content
size 10, disruption off, counter at round 2, asked to encode round 5 — three
skipped rounds drop 30 bytes and the pads consume 10 more.  Second conjunct:
on `c2Entity` (disruption on, `GetPayloadSize = 36`) a 40-byte payload —
which the `DCNetContentSize = 68` check admits — makes the call fail with
the `clientEncode` slice-bounds panic. -/
theorem encodeForRound_cases_witness :
    (EncodeForRound
        { isClient := true, DCNetMessageSize := 10, equivocationContribLength := 0,
          disruptionProtectionEnabled := false, currentRound := 2,
          prngConsumed := [7] } 5 (some [1, 2, 3]) =
      Except.ok
        { isClient := true, DCNetMessageSize := 10, equivocationContribLength := 0,
          disruptionProtectionEnabled := false, currentRound := 5,
          prngConsumed := [7 + 3 * 10 + 10] }) ∧
    isError (EncodeForRound c2Entity 1 (some (zeros 40))) = true := by
  constructor
  · have h := (encodeForRound_cases
      { isClient := true, DCNetMessageSize := 10, equivocationContribLength := 0,
        disruptionProtectionEnabled := false, currentRound := 2,
        prngConsumed := [7] } 5 (some [1, 2, 3])).2.2.2 (by decide) (by decide)
      (by decide)
    simpa using h
  · exact (encodeForRound_cases c2Entity 1 (some (zeros 40))).2.2.1 (by decide)
      (by decide)

/-- **C2 counterexample.** Skipping one round on `c2Entity` drops
`DCNetContentSize = 68` bytes per peer (the `.ok` state shows 68 dropped plus
the 68-byte pad), which is neither the owner payload size 36 nor the
configured message/payload size 100 — so "drops exactly payloadSize bytes per
skipped round" fails on this input. -/
theorem encodeForRound_payloadSize_counterexample :
    EncodeForRound c2Entity 1 none =
      Except.ok { c2Entity with currentRound := 1, prngConsumed := [68 + 68] } ∧
    DCNetContentSize c2Entity = 68 ∧
    GetPayloadSize c2Entity = 36 ∧
    c2Entity.DCNetMessageSize = 100 ∧
    ¬ (68 = GetPayloadSize c2Entity) ∧
    ¬ (68 = c2Entity.DCNetMessageSize) := by
  exact ⟨rfl, by decide, by decide, by decide, by decide, by decide⟩

/-! ## C3: `DecodeCell` under the protection flags -/

/-- `DCNetRoundDecoder` (src/unnamed/part_002, lines 48-53). -/
structure DCNetRoundDecoder where
  currentRoundBeingDecoded : Int
  xorBuffer : Bytes
  equivTrusteeContribs : List Bytes
  equivClientContribs : List Bytes
  deriving Repr, DecidableEq

/-- `DecodeCell` (src/unnamed/part_002, lines 296-315) with the two flags
explicit.  `relayDecode` stands for `equivocationProtection.RelayDecode`
(equivocation.go, not under src/), so the behavior is stated for every
candidate decoder.  Note the Go function computes `decoded` (the
equivocation-decoded cell) but its final statement returns `d.xorBuffer`,
not `decoded`. -/
def DecodeCell (equivocationProtectionEnabled disruptionProtectionEnabled : Bool)
    (relayDecode : Bytes → List Bytes → List Bytes → Bytes)
    (d : DCNetRoundDecoder) : Bytes :=
  let decoded :=
    if equivocationProtectionEnabled then
      relayDecode d.xorBuffer d.equivTrusteeContribs d.equivClientContribs
    else d.xorBuffer
  if disruptionProtectionEnabled then
    decoded.drop 32
  else
    d.xorBuffer

/--
**C3 (code bug).** With equivocation protection enabled and disruption
protection disabled, `DecodeCell` returns the raw XOR buffer for *every*
possible equivocation decoder — the `decoded = RelayDecode(...)` value is
computed and then discarded by the final `return d.xorBuffer` — contradicting
the claim (and spec §4.1: "if equivocation, call EqRelayDecode").  The second
conjunct evaluates the code at a concrete failing input where the decoder's
output `[1]` differs from the returned buffer `[0]`.
-/
theorem decodeCell_ignores_equivocation_decoder :
    (∀ (relayDecode : Bytes → List Bytes → List Bytes → Bytes)
      (d : DCNetRoundDecoder), DecodeCell true false relayDecode d = d.xorBuffer) ∧
    (DecodeCell true false (fun _ _ _ => [1])
        { currentRoundBeingDecoded := 0, xorBuffer := [0],
          equivTrusteeContribs := [], equivClientContribs := [] } = [0] ∧
      (fun (_ : Bytes) (_ _ : List Bytes) => ([1] : Bytes)) [0] [] [] ≠ [0]) := by
  refine ⟨fun relayDecode d => rfl, by decide, by decide⟩

/-! ## C9: the two disruption-HMAC key strings -/

/-- `[]byte("secret-client-" + strconv.Itoa(clientID))`, the HMAC key of the
DC-net entity `computeHmac256` (src/unnamed/part_002, lines 170-175). -/
def computeHmacKey (clientID : Nat) : List Char :=
  ("secret-client-" ++ toString clientID).data

/-- `[]byte("client-secret" + strconv.Itoa(clientID))`, the HMAC key of the
relay `ValidateHmac256` (src/prifi-lib/relay/relay.go, lines 944-951). -/
def validateHmacKey (clientID : Nat) : List Char :=
  ("client-secret" ++ toString clientID).data

/-- `computeHmac256` with the HMAC-SHA256 primitive (external crypto) taken
as a parameter. -/
def computeHmac256 (hmac : List Char → Bytes → Bytes) (clientID : Nat)
    (message : Bytes) : Bytes :=
  hmac (computeHmacKey clientID) message

/-- `ValidateHmac256` (src/prifi-lib/relay/relay.go, lines 944-951):
recomputes the HMAC under the relay-side key and compares. -/
def ValidateHmac256 (hmac : List Char → Bytes → Bytes) (message inputHmac : Bytes)
    (clientID : Nat) : Bool :=
  inputHmac == hmac (validateHmacKey clientID) message

/--
**C9.** For every client id the relay-side HMAC key `"client-secret" + i`
differs from the entity-side key `"secret-client-" + i` (their first bytes
already differ), and the produce-then-validate round trip
`ValidateHmac256(m, computeHmac256(i, m), i)` is by definition a comparison
of HMACs computed under those two different keys, not an identity check.
-/
theorem hmac_keys_differ (i : Nat) (hmac : List Char → Bytes → Bytes)
    (m : Bytes) :
    computeHmacKey i ≠ validateHmacKey i ∧
    ValidateHmac256 hmac m (computeHmac256 hmac i m) i =
      (hmac (computeHmacKey i) m == hmac (validateHmacKey i) m) := by
  constructor
  · intro h
    have h1 : (computeHmacKey i).head? = some 's' := rfl
    have h2 : (validateHmacKey i).head? = some 'c' := rfl
    rw [h, h2] at h1
    exact absurd (Option.some.inj h1) (by decide)
  · rfl

/-- Witness for C9 at client id 3 and a trivial HMAC function. -/
theorem hmac_keys_differ_witness :
    computeHmacKey 3 ≠ validateHmacKey 3 :=
  (hmac_keys_differ 3 (fun _ _ => []) []).1

/-! ## C5: the trustee shuffle step and chained transcripts

The kyber suite (external crypto) provides an abstract cyclic group of
prime order; scalars and points are modelled by integers with the scalar
action as ring multiplication — the only properties the code relies on
(commutativity and associativity of the action) hold in any such group. -/

/-- The shuffle-placement loop of `ReceivedShuffleFromRelay`
(src/unnamed/part_003, lines 733-738): `out[perm[i]] = in[i]`, so position
`k` of the output holds the input element whose index maps to `k`. -/
def applyGoPerm (perm : List Nat) (l : List Int) : List Int :=
  (List.range l.length).map (fun k => l.getD (perm.indexOf k) 0)

/-- `rand.Perm n` always yields such a list: a duplicate-free list of the
`n` indices below `n`. -/
def IsPermList (perm : List Nat) (n : Nat) : Prop :=
  perm.Nodup ∧ perm.length = n ∧ ∀ x ∈ perm, x < n

/-- `ReceivedShuffleFromRelay` (src/unnamed/part_003, lines 706-755) with
`shuffleKeyPositions = true`.  The freshly picked secret coefficient and the
random permutation are inputs (the code draws them from `random.Stream` /
`rand.Perm`): the new shares are `lastShares * c`, every key is multiplied
by `c`, and the list is permuted. -/
def ReceivedShuffleFromRelay (c : Int) (perm : List Nat)
    (lastShares : Option Int) (clientPublicKeys : Option (List Int))
    (shuffleKeyPositions : Bool) : Except String (Int × List Int) :=
  match lastShares with
  | none => Except.error "Cannot perform a shuffle is lastShare is nil"
  | some s =>
    match clientPublicKeys with
    | none => Except.error "Cannot perform a shuffle is clientPublicKeys is nil"
    | some keys =>
      if keys.length = 0 then
        Except.error "Cannot perform a shuffle is len(clientPublicKeys) is 0"
      else
        let newShares := s * c
        let scaled := keys.map (fun p => c * p)
        let out := if shuffleKeyPositions then applyGoPerm perm scaled else scaled
        Except.ok (newShares, out)

/-- A chain of trustee shuffle steps applied to the initial ephemeral keys:
each step multiplies every key by that trustee's secret coefficient and
permutes the list, exactly as in the `.ok` branch above. -/
def shuffleChain (steps : List (Int × List Nat)) (keys0 : List Int) : List Int :=
  steps.foldl (fun keys st => applyGoPerm st.2 (keys.map (fun p => st.1 * p)))
    keys0

/-- The product of the secret coefficients of a chain of steps. -/
def coeffProd (steps : List (Int × List Nat)) : Int :=
  (steps.map Prod.fst).prod

theorem length_applyGoPerm (perm : List Nat) (l : List Int) :
    (applyGoPerm perm l).length = l.length := by
  simp [applyGoPerm]

theorem getD_applyGoPerm (perm : List Nat) (l : List Int) {k : Nat}
    (hk : k < l.length) :
    (applyGoPerm perm l).getD k 0 = l.getD (perm.indexOf k) 0 := by
  unfold applyGoPerm
  rw [List.getD_eq_getElem?_getD, List.getElem?_map, List.getElem?_range hk]
  rfl

theorem getD_map_mul (c : Int) (l : List Int) (k : Nat) :
    (l.map (fun p => c * p)).getD k 0 = c * l.getD k 0 := by
  rcases Nat.lt_or_ge k l.length with hk | hk
  · rw [List.getD_eq_getElem?_getD, List.getElem?_map,
      List.getD_eq_getElem?_getD, List.getElem?_eq_getElem hk]
    rfl
  · have h1 : l[k]? = none := List.getElem?_eq_none hk
    rw [List.getD_eq_getElem?_getD, List.getElem?_map, h1,
      List.getD_eq_getElem?_getD, h1]
    simp

/-- A permutation list of `[0, n)` contains every index below `n`. -/
theorem IsPermList.mem {perm : List Nat} {n : Nat} (h : IsPermList perm n)
    {k : Nat} (hk : k < n) : k ∈ perm := by
  obtain ⟨hnd, hlen, hlt⟩ := h
  have hsub : perm.toFinset ⊆ Finset.range n := by
    intro x hx
    exact Finset.mem_range.mpr (hlt x (List.mem_toFinset.mp hx))
  have hcard : (Finset.range n).card ≤ perm.toFinset.card := by
    rw [Finset.card_range, List.toFinset_card_of_nodup hnd, hlen]
  have heq : perm.toFinset = Finset.range n :=
    Finset.eq_of_subset_of_card_le hsub hcard
  rw [← List.mem_toFinset, heq]
  exact Finset.mem_range.mpr hk

/-- The `indexOf` function of a permutation list restricts to a bijection of
`[0, n)`. -/
theorem IsPermList.indexOf_bij {perm : List Nat} {n : Nat} (h : IsPermList perm n) :
    (∀ k < n, perm.indexOf k < n) ∧
    (∀ k1 < n, ∀ k2 < n, perm.indexOf k1 = perm.indexOf k2 → k1 = k2) ∧
    (∀ m < n, ∃ k, k < n ∧ perm.indexOf k = m) := by
  obtain ⟨hnd, hlen, hlt⟩ := h
  refine ⟨?_, ?_, ?_⟩
  · intro k hk
    have := List.indexOf_lt_length.mpr (IsPermList.mem ⟨hnd, hlen, hlt⟩ hk)
    omega
  · intro k1 hk1 k2 hk2 hidx
    exact (List.indexOf_inj (IsPermList.mem ⟨hnd, hlen, hlt⟩ hk1)
      (IsPermList.mem ⟨hnd, hlen, hlt⟩ hk2)).mp hidx
  · intro m hm
    have hmlen : m < perm.length := by omega
    refine ⟨perm.get ⟨m, hmlen⟩, hlt _ (perm.get_mem m hmlen), ?_⟩
    exact List.get_indexOf hnd ⟨m, hmlen⟩

theorem length_shuffleChain (steps : List (Int × List Nat)) (keys0 : List Int) :
    (shuffleChain steps keys0).length = keys0.length := by
  induction steps generalizing keys0 with
  | nil => rfl
  | cons st steps ih =>
    show (shuffleChain steps (applyGoPerm st.2 (keys0.map _))).length = _
    rw [ih, length_applyGoPerm, List.length_map]

/--
**C5.** (i) Each trustee shuffle step with `shuffleKeyPositions = true`
returns the new shares `s * c` together with the input ephemeral keys each
multiplied by `c` and then permuted (and rejects nil or empty inputs);
(ii) consequently, for every transcript obtained by chaining such steps
there is a permutation `π` of `[0, n)` — injective and surjective below
`n` — with `pks_M[k] = (∏ c_j) * pks_0[π k]` for every index `k < n`.
-/
theorem shuffle_step_and_chain (c : Int) (perm : List Nat) (s : Int)
    (keys : List Int) (steps : List (Int × List Nat)) (keys0 : List Int)
    (hkeys : keys.length ≠ 0)
    (hsteps : ∀ st ∈ steps, IsPermList st.2 keys0.length) :
    (ReceivedShuffleFromRelay c perm (some s) (some keys) true =
      Except.ok (s * c, applyGoPerm perm (keys.map (fun p => c * p)))) ∧
    (ReceivedShuffleFromRelay c perm none (some keys) true =
      Except.error "Cannot perform a shuffle is lastShare is nil") ∧
    (∃ π : Nat → Nat,
      (∀ k < keys0.length, π k < keys0.length) ∧
      (∀ k1 < keys0.length, ∀ k2 < keys0.length, π k1 = π k2 → k1 = k2) ∧
      (∀ m < keys0.length, ∃ k, k < keys0.length ∧ π k = m) ∧
      (∀ k < keys0.length,
        (shuffleChain steps keys0).getD k 0 =
          coeffProd steps * keys0.getD (π k) 0)) := by
  refine ⟨by simp [ReceivedShuffleFromRelay, hkeys], rfl, ?_⟩
  induction steps generalizing keys0 with
  | nil =>
    refine ⟨id, fun k hk => hk, fun k1 _ k2 _ h => h, ?_, ?_⟩
    · intro m hm
      exact ⟨m, hm, rfl⟩
    · intro k hk
      simp [shuffleChain, coeffProd]
  | cons st steps ih =>
    set n := keys0.length with hn
    have hst : IsPermList st.2 n := hsteps st (by simp)
    obtain ⟨hf1, hf2, hf3⟩ := hst.indexOf_bij
    set keys1 := applyGoPerm st.2 (keys0.map (fun p => st.1 * p)) with hk1
    have hlen1 : keys1.length = n := by
      rw [hk1, length_applyGoPerm, List.length_map]
    obtain ⟨π1, hp1, hp2, hp3, hp4⟩ :=
      ih keys1 (by rw [hlen1]; exact fun q hq => hsteps q (by simp [hq]))
    rw [hlen1] at hp1 hp2 hp3 hp4
    refine ⟨fun k => st.2.indexOf (π1 k), ?_, ?_, ?_, ?_⟩
    · intro k hk
      exact hf1 _ (hp1 k hk)
    · intro k1 hk1 k2 hk2 hpi
      exact hp2 k1 hk1 k2 hk2 (hf2 _ (hp1 k1 hk1) _ (hp1 k2 hk2) hpi)
    · intro m hm
      obtain ⟨m1, hm1, hm1eq⟩ := hf3 m hm
      obtain ⟨k, hk, hkeq⟩ := hp3 m1 hm1
      refine ⟨k, hk, ?_⟩
      show st.2.indexOf (π1 k) = m
      rw [hkeq]
      exact hm1eq
    · intro k hk
      have hchain : shuffleChain (st :: steps) keys0 = shuffleChain steps keys1 := rfl
      rw [hchain, hp4 k hk, hk1,
        getD_applyGoPerm st.2 _ (by rw [List.length_map]; exact hp1 k hk),
        getD_map_mul]
      show coeffProd steps * (st.1 * keys0.getD (st.2.indexOf (π1 k)) 0) =
        coeffProd (st :: steps) * keys0.getD (st.2.indexOf (π1 k)) 0
      unfold coeffProd
      rw [List.map_cons, List.prod_cons]
      ring

/-- Witness for C5 at a concrete step and chain: two keys, one step with
coefficient 3 and the swap permutation, then one step with coefficient 5 and
the identity permutation. -/
theorem shuffle_step_and_chain_witness :
    (ReceivedShuffleFromRelay 3 [1, 0] (some 2) (some [10, 20]) true =
      Except.ok ((2 * 3 : Int),
        applyGoPerm [1, 0] ([10, 20].map (fun p => 3 * p)))) ∧
    (∃ π : Nat → Nat,
      (∀ k < 2, π k < 2) ∧
      (∀ k1 < 2, ∀ k2 < 2, π k1 = π k2 → k1 = k2) ∧
      (∀ m < 2, ∃ k, k < 2 ∧ π k = m) ∧
      (∀ k < 2,
        (shuffleChain [(3, [1, 0]), (5, [0, 1])] [10, 20]).getD k 0 =
          coeffProd [(3, [1, 0]), (5, [0, 1])] * ([10, 20] : List Int).getD (π k) 0)) := by
  have h := shuffle_step_and_chain 3 [1, 0] 2 [10, 20]
    [(3, [1, 0]), (5, [0, 1])] [10, 20] (by decide)
    (by
      intro st hst
      simp only [List.mem_cons, List.not_mem_nil, or_false] at hst
      rcases hst with h1 | h1 <;> rw [h1] <;>
        exact ⟨by decide, by decide, by decide⟩)
  exact ⟨h.1, h.2.2⟩

/-! ## C4: the trustee's transcript check -/

/-- The trustee view fields `ReceivedTranscriptFromRelay` reads
(src/unnamed/part_003, lines 672-681): the stored shares, ephemeral keys and
proof from its own shuffle step. -/
structure TrusteeView where
  Shares : Option Int
  EphemeralKeys : List Int
  Proof : Option Bytes
  deriving Repr, DecidableEq

/-- `ReceivedTranscriptFromRelay` (src/unnamed/part_003, lines 760-851).
`hashVerify j` stands for the pair-shuffle `crypto_proof.HashVerify` verdict
on the j-th proof (external crypto).  The source computes a `verify` flag
from it but then unconditionally resets `verify = true` ("TODO: This shuffle
needs to be fixed"), so the verdict is discarded; the own-permutation check
is real; on success the trustee signs the final `(s_M, pks_M)` — the
Schnorr signature (external crypto) is modelled by the signed blob itself. -/
def ReceivedTranscriptFromRelay (hashVerify : Nat → Bool) (t : TrusteeView)
    (shares : List Int) (shuffledPublicKeys : List (List Int))
    (proofs : List Bytes) : Except String (Int × List Int) :=
  match t.Shares with
  | none => Except.error "Cannot verify the shuffle, we didn't store the base"
  | some tShares =>
    if t.EphemeralKeys.length = 0 then
      Except.error "Cannot verify the shuffle, we didn't store the ephemeral keys"
    else
      match t.Proof with
      | none => Except.error "Cannot verify the shuffle, we didn't store the proof"
      | some tProof =>
        if shares.length ≠ shuffledPublicKeys.length ∨
            shares.length ≠ proofs.length then
          Except.error "Size not matching"
        else
          let nTrustees := shares.length
          let nClients := (shuffledPublicKeys.headD []).length
          -- shuffle verification loop: `verify` is forced back to true,
          -- so the verifier's verdicts are computed and dropped
          let _verdicts := (List.range nTrustees).map hashVerify
          let found := (List.range nTrustees).any (fun j =>
            shares.getD j 0 == tShares && proofs.getD j [] == tProof &&
            (List.range nClients).all (fun k =>
              t.EphemeralKeys.getD k 0 == (shuffledPublicKeys.getD j []).getD k 0))
          if !found then
            Except.error "Could not locate our own permutation in the transcript..."
          else
            Except.ok (shares.getD (nTrustees - 1) 0,
              shuffledPublicKeys.getD (nTrustees - 1) [])

/--
**C4 (code bug).** The transcript handler's outcome does not depend on the
pair-shuffle verifier at all (first conjunct: any two verifiers give the
same result, since `verify` is unconditionally reset to `true` in the
source).  Concretely (second conjunct), a trustee whose own permutation
appears in a two-trustee transcript signs the final `(s_M, pks_M)` even when
every shuffle proof fails verification — contradicting the claim that a
failing proof yields an error without signing.  The own-permutation check
itself is real (third conjunct: with the trustee's keys absent, the call
errors instead of signing).
-/
theorem transcript_signed_despite_failing_proofs :
    (∀ (hv1 hv2 : Nat → Bool) (t : TrusteeView) (shares : List Int)
      (spk : List (List Int)) (proofs : List Bytes),
      ReceivedTranscriptFromRelay hv1 t shares spk proofs =
        ReceivedTranscriptFromRelay hv2 t shares spk proofs) ∧
    (ReceivedTranscriptFromRelay (fun _ => false)
        { Shares := some 6, EphemeralKeys := [2, 4], Proof := some [0] }
        [3, 6] [[1, 2], [2, 4]] [[1], [0]] =
      Except.ok (6, [2, 4])) ∧
    (ReceivedTranscriptFromRelay (fun _ => false)
        { Shares := some 6, EphemeralKeys := [9, 9], Proof := some [0] }
        [3, 6] [[1, 2], [2, 4]] [[1], [0]] =
      Except.error "Could not locate our own permutation in the transcript...") := by
  refine ⟨fun hv1 hv2 t shares spk proofs => rfl, by rfl, by rfl⟩

/-! ## C6: the disruption echo in the downstream phase -/

/-- The relay state read by the downstream-content computation of
`downstreamPhase1_openRoundAndSendData` (src/prifi-lib/relay/relay.go,
lines 607-648).  Go map lookups yield the zero value when the key is
absent: byte 0 for `BEchoFlags`, a nil slice for `LastMessageOfClients`. -/
structure EchoState where
  DisruptionProtectionEnabled : Bool
  UseDummyDataDown : Bool
  DownstreamCellSize : Nat
  nClients : Nat
  lastRoundClosed : Int
  BEchoFlags : Int → Nat
  LastMessageOfClients : Int → Option Bytes

/-- The downstream cell content built by
`downstreamPhase1_openRoundAndSendData` (src/prifi-lib/relay/relay.go,
lines 607-648): priority data if any, else queued data, else one zero byte;
then, with disruption protection on and `b_echo_last = 1` recorded for the
round just closed, the content is replaced by the stored upstream plaintext
of round `lastRoundClosed - nClients`; finally the dummy-data padding.  The
cell is then broadcast to clients `0 .. nClients-1` (lines 694-699). -/
def openRoundDownstreamData (s : EchoState)
    (priority dataForClients : Option Bytes) : Bytes :=
  let content0 : Bytes :=
    match priority with
    | some p => p
    | none =>
      match dataForClients with
      | some d => d
      | none => zeros 1
  let content1 : Bytes :=
    if s.DisruptionProtectionEnabled ∧ s.BEchoFlags s.lastRoundClosed = 1 then
      (s.LastMessageOfClients (s.lastRoundClosed - (s.nClients : Int))).getD []
    else content0
  if s.UseDummyDataDown ∧ content1.length < s.DownstreamCellSize then
    goCopyInto (zeros s.DownstreamCellSize) content1
  else content1

/-- The concrete state refuting C6 as stated: two clients, round 11 just
closed with its echo flag set; the stored upstream plaintexts are `[10]`
for round 10 (the immediately preceding round) and `[99]` for round 9. -/
def c6State : EchoState :=
  { DisruptionProtectionEnabled := true, UseDummyDataDown := false,
    DownstreamCellSize := 0, nClients := 2, lastRoundClosed := 11,
    BEchoFlags := fun r => if r = 11 then 1 else 0,
    LastMessageOfClients := fun r =>
      if r = 10 then some [10] else if r = 9 then some [99] else none }

/-- **C6 counterexample.** With two clients and the echo requested at round
11, the next downstream cell carries round 9's upstream plaintext `[99]`
(`lastRoundClosed - nClients`), not round 10's `[10]` — so "the upstream
plaintext of the immediately preceding round" fails whenever `nClients ≠ 1`. -/
theorem echo_previous_round_counterexample :
    openRoundDownstreamData c6State none none = [99] ∧
    c6State.LastMessageOfClients (11 - 1) = some [10] ∧
    ([99] : Bytes) ≠ [10] := by
  refine ⟨by rfl, by rfl, by decide⟩

/--
**C6 (amended).** With disruption protection enabled, if the upstream cell
of the round the relay just closed carried `b_echo_last = 1`, the next
downstream cell carries as its payload the stored upstream plaintext of
round `lastRoundClosed - nClients` — the echoing client's previous slot,
which is the immediately preceding round exactly when `nClients = 1` —
regardless of any priority or queued downstream data.
-/
theorem echo_retransmits_previous_slot (s : EchoState)
    (priority dataForClients : Option Bytes)
    (hd : s.DisruptionProtectionEnabled = true)
    (hflag : s.BEchoFlags s.lastRoundClosed = 1)
    (hdummy : s.UseDummyDataDown = false) :
    openRoundDownstreamData s priority dataForClients =
      (s.LastMessageOfClients (s.lastRoundClosed - (s.nClients : Int))).getD [] := by
  simp [openRoundDownstreamData, hd, hflag, hdummy]

/-- Witness for C6 (amended) at the concrete `c6State`. -/
theorem echo_retransmits_previous_slot_witness :
    openRoundDownstreamData c6State (some [5]) none =
      (c6State.LastMessageOfClients (c6State.lastRoundClosed -
        (c6State.nClients : Int))).getD [] :=
  echo_retransmits_previous_slot c6State (some [5]) none rfl rfl rfl

/-! ## C10: rejected parameters leave the relay untouched -/

/-- `ALL_ALL_PARAMETERS` (src/prifi-lib/net/all_all_params.go): a map from
keys to dynamically typed values, split here by type; `IntValueOrElse` and
friends return the stored value or the supplied default. -/
structure ParamsMsg where
  intParams : String → Option Int
  boolParams : String → Option Bool
  stringParams : String → Option String

def IntValueOrElse (m : ParamsMsg) (key : String) (elseVal : Int) : Int :=
  (m.intParams key).getD elseVal

def BoolValueOrElse (m : ParamsMsg) (key : String) (elseVal : Bool) : Bool :=
  (m.boolParams key).getD elseVal

def StringValueOrElse (m : ParamsMsg) (key : String) (elseVal : String) : String :=
  (m.stringParams key).getD elseVal

/-- The relay session state as assigned by `Received_ALL_ALL_PARAMETERS`
(src/prifi-lib/relay/relay.go, lines 116-159).  Slices allocated with
`make([]T, n)` hold zero values and are tracked by their length; freshly
emptied maps are association lists; `bitrateStatistics` is tracked by the
cell size it was built from; `roundManager` by its constructor arguments;
`MessageHistory` by the XOF seed. -/
structure RelayState where
  nClients : Int
  nTrustees : Int
  clients : Nat
  trustees : Nat
  nTrusteesPkCollected : Int
  nClientsPkCollected : Int
  ExperimentRoundLimit : Int
  PayloadSize : Int
  DownstreamCellSize : Int
  bitrateStatistics : Int
  UseDummyDataDown : Bool
  UseOpenClosedSlots : Bool
  UseUDP : Bool
  WindowSize : Int
  numberOfNonAckedDownstreamPackets : Int
  OpenClosedSlotsMinDelayBetweenRequests : Int
  MaxNumberOfConsecutiveFailedRounds : Int
  ProcessingLoopSleepTime : Int
  RoundTimeOut : Int
  TrusteeCacheLowBound : Int
  TrusteeCacheHighBound : Int
  EquivocationProtectionEnabled : Bool
  ForceDisruptionSinceRound3 : Bool
  MessageHistory : List Char
  VerifiableDCNetKeys : Nat
  nVkeysCollected : Int
  dcNetType : String
  DisruptionProtectionEnabled : Bool
  roundManager : Int × Int × Int
  clientBitMap : List (Int × List (Int × Int))
  trusteeBitMap : List (Int × List (Int × Int))
  OpenClosedSlotsRequestsRoundID : List Int
  LastMessageOfClients : List (Int × Bytes)
  BEchoFlags : List (Int × Nat)
  CiphertextsHistoryTrustees : List (Int × List (Int × Bytes))
  CiphertextsHistoryClients : List (Int × List (Int × Bytes))
  deriving DecidableEq

/-- `Received_ALL_ALL_PARAMETERS` (src/prifi-lib/relay/relay.go, lines
89-195): reads all parameters with their defaults, rejects `PayloadSize < 1`
before any assignment — returning the receiver unchanged, as the Go method
returns before mutating `p.relayState` — and otherwise performs every
assignment of lines 116-159 (the `Verifiable` DC-net type panics after the
assignments).  The state-machine transition and broadcast on `StartNow`
(lines 184-187) touch no `relayState` field and are not modelled. -/
def Received_ALL_ALL_PARAMETERS (p : RelayState) (msg : ParamsMsg) :
    RelayState × Option String :=
  let nTrustees := IntValueOrElse msg "NTrustees" p.nTrustees
  let nClients := IntValueOrElse msg "NClients" p.nClients
  let payloadSize := IntValueOrElse msg "PayloadSize" p.PayloadSize
  let downCellSize := IntValueOrElse msg "DownstreamCellSize" p.DownstreamCellSize
  let windowSize := IntValueOrElse msg "WindowSize" p.WindowSize
  let useDummyDown := BoolValueOrElse msg "UseDummyDataDown" p.UseDummyDataDown
  let useOpenClosedSlots := BoolValueOrElse msg "UseOpenClosedSlots" p.UseOpenClosedSlots
  let reportingLimit := IntValueOrElse msg "ExperimentRoundLimit" p.ExperimentRoundLimit
  let useUDP := BoolValueOrElse msg "UseUDP" p.UseUDP
  let dcNetType := StringValueOrElse msg "DCNetType" p.dcNetType
  let disruptionProtection := BoolValueOrElse msg "DisruptionProtectionEnabled" false
  let openClosedSlotsMinDelayBetweenRequests :=
    IntValueOrElse msg "OpenClosedSlotsMinDelayBetweenRequests"
      p.OpenClosedSlotsMinDelayBetweenRequests
  let maxNumberOfConsecutiveFailedRounds :=
    IntValueOrElse msg "RelayMaxNumberOfConsecutiveFailedRounds"
      p.MaxNumberOfConsecutiveFailedRounds
  let processingLoopSleepTime :=
    IntValueOrElse msg "RelayProcessingLoopSleepTime" p.ProcessingLoopSleepTime
  let roundTimeOut := IntValueOrElse msg "RelayRoundTimeOut" p.RoundTimeOut
  let trusteeCacheLowBound :=
    IntValueOrElse msg "RelayTrusteeCacheLowBound" p.TrusteeCacheLowBound
  let trusteeCacheHighBound :=
    IntValueOrElse msg "RelayTrusteeCacheHighBound" p.TrusteeCacheHighBound
  let equivocationProtectionEnabled :=
    BoolValueOrElse msg "EquivocationProtectionEnabled" p.EquivocationProtectionEnabled
  let forceDisruptionSinceRound3 :=
    BoolValueOrElse msg "ForceDisruptionSinceRound3" false
  if payloadSize < 1 then
    (p, some "payloadSize cannot be 0")
  else
    let newState : RelayState :=
      { nClients := nClients
        nTrustees := nTrustees
        clients := nClients.toNat
        trustees := nTrustees.toNat
        nTrusteesPkCollected := 0
        nClientsPkCollected := 0
        ExperimentRoundLimit := reportingLimit
        PayloadSize := payloadSize
        DownstreamCellSize := downCellSize
        bitrateStatistics := payloadSize
        UseDummyDataDown := useDummyDown
        UseOpenClosedSlots := useOpenClosedSlots
        UseUDP := useUDP
        WindowSize := windowSize
        numberOfNonAckedDownstreamPackets := 0
        OpenClosedSlotsMinDelayBetweenRequests := openClosedSlotsMinDelayBetweenRequests
        MaxNumberOfConsecutiveFailedRounds := maxNumberOfConsecutiveFailedRounds
        ProcessingLoopSleepTime := processingLoopSleepTime
        RoundTimeOut := roundTimeOut
        TrusteeCacheLowBound := trusteeCacheLowBound
        TrusteeCacheHighBound := trusteeCacheHighBound
        EquivocationProtectionEnabled := equivocationProtectionEnabled
        ForceDisruptionSinceRound3 := forceDisruptionSinceRound3
        MessageHistory := "init".data
        VerifiableDCNetKeys := nTrustees.toNat
        nVkeysCollected := 0
        dcNetType := dcNetType
        DisruptionProtectionEnabled := disruptionProtection
        roundManager := (nClients, nTrustees, windowSize)
        clientBitMap := []
        trusteeBitMap := []
        OpenClosedSlotsRequestsRoundID := []
        LastMessageOfClients := []
        BEchoFlags := []
        CiphertextsHistoryTrustees :=
          (List.range nTrustees.toNat).map (fun j => ((j : Int), []))
        CiphertextsHistoryClients :=
          (List.range nClients.toNat).map (fun i => ((i : Int), [])) }
    if dcNetType = "Verifiable" then
      (newState, some "Verifiable DCNet not implemented yet")
    else
      (newState, none)

/--
**C10.** If `Received_ALL_ALL_PARAMETERS` is invoked with a message whose
`PayloadSize` parameter (after defaulting) is less than 1, it returns an
error and the relay state is returned exactly as it was — the size check
precedes every assignment to `relayState`, so a rejected parameters message
has no observable effect on the relay.
-/
theorem rejected_params_leave_state_unchanged (p : RelayState) (msg : ParamsMsg)
    (h : IntValueOrElse msg "PayloadSize" p.PayloadSize < 1) :
    Received_ALL_ALL_PARAMETERS p msg = (p, some "payloadSize cannot be 0") := by
  unfold Received_ALL_ALL_PARAMETERS
  rw [if_pos h]

/-- A fully populated relay state for the C10 witness. -/
def c10State : RelayState :=
  { nClients := 2, nTrustees := 1, clients := 2, trustees := 1,
    nTrusteesPkCollected := 0, nClientsPkCollected := 0,
    ExperimentRoundLimit := -1, PayloadSize := 100, DownstreamCellSize := 17,
    bitrateStatistics := 100, UseDummyDataDown := false,
    UseOpenClosedSlots := false, UseUDP := false, WindowSize := 2,
    numberOfNonAckedDownstreamPackets := 0,
    OpenClosedSlotsMinDelayBetweenRequests := 3000,
    MaxNumberOfConsecutiveFailedRounds := 3, ProcessingLoopSleepTime := 0,
    RoundTimeOut := 1000, TrusteeCacheLowBound := 1,
    TrusteeCacheHighBound := 10, EquivocationProtectionEnabled := false,
    ForceDisruptionSinceRound3 := false, MessageHistory := "init".data,
    VerifiableDCNetKeys := 1, nVkeysCollected := 0, dcNetType := "Simple",
    DisruptionProtectionEnabled := false, roundManager := (2, 1, 2),
    clientBitMap := [], trusteeBitMap := [],
    OpenClosedSlotsRequestsRoundID := [], LastMessageOfClients := [],
    BEchoFlags := [], CiphertextsHistoryTrustees := [],
    CiphertextsHistoryClients := [] }

/-- A parameters message carrying `PayloadSize = 0`. -/
def c10Msg : ParamsMsg :=
  { intParams := fun k => if k = "PayloadSize" then some 0 else none,
    boolParams := fun _ => none,
    stringParams := fun _ => none }

/-- Witness for C10: a message carrying `PayloadSize = 0` against a default
state. -/
theorem rejected_params_leave_state_unchanged_witness :
    Received_ALL_ALL_PARAMETERS c10State c10Msg =
      (c10State, some "payloadSize cannot be 0") :=
  rejected_params_leave_state_unchanged c10State c10Msg (by decide)

/-! ## C8: the non-acked downstream window invariant -/

/-- The relay state driving the downstream window: the configured
`WindowSize`, `numberOfNonAckedDownstreamPackets`, the number of currently
open (downstream sent, not yet finalized) rounds, and whether the relay has
entered COMMUNICATING. -/
structure WindowState where
  WindowSize : Int
  numberOfNonAckedDownstreamPackets : Int
  openRounds : Int
  communicating : Bool
  deriving Repr, DecidableEq

/-- `downstreamPhase_sendMany` (src/prifi-lib/relay/relay.go, lines
320-326): `for i := numberOfNonAckedDownstreamPackets; i < WindowSize; i++`
calls `downstreamPhase1_openRoundAndSendData`, each call opening one round
(line 691) and incrementing the counter (line 720) — so the counter is
incremented only while strictly below `WindowSize`. -/
def downstreamPhase_sendMany (s : WindowState) : WindowState :=
  let sends :=
    if s.numberOfNonAckedDownstreamPackets < s.WindowSize then
      s.WindowSize - s.numberOfNonAckedDownstreamPackets
    else 0
  { s with
    numberOfNonAckedDownstreamPackets :=
      s.numberOfNonAckedDownstreamPackets + sends,
    openRounds := s.openRounds + sends }

/-- The relay events that touch `numberOfNonAckedDownstreamPackets`. -/
inductive RelayEvent
  | paramsAccepted (windowSize : Int)
  | shuffleSigsDone
  | roundComplete
  deriving Repr, DecidableEq

/-- One relay transition.  `paramsAccepted` is a successful
`Received_ALL_ALL_PARAMETERS` (src/prifi-lib/relay/relay.go, line 130:
counter reset to 0, no round open).  `shuffleSigsDone` is the all-signatures
branch of `Received_TRU_REL_SHUFFLE_SIG` (lines 923 and 938:
`OpenNextRound()` and counter set to 1, entering COMMUNICATING); the state
machine accepts it only before COMMUNICATING.  `roundComplete` is
`upstreamPhase1_processCiphers` (lines 277-316): it fires only when the
round manager holds an open round with all its ciphers, runs
`upstreamPhase3_finalizeRound` (line 538: counter decremented by exactly 1,
the open round closed) and then `downstreamPhase_sendMany`. -/
def relayStep (s : WindowState) (e : RelayEvent) : WindowState :=
  match e with
  | RelayEvent.paramsAccepted w =>
    { WindowSize := w, numberOfNonAckedDownstreamPackets := 0,
      openRounds := 0, communicating := false }
  | RelayEvent.shuffleSigsDone =>
    if s.communicating then s
    else
      { s with numberOfNonAckedDownstreamPackets := 1,
               openRounds := s.openRounds + 1, communicating := true }
  | RelayEvent.roundComplete =>
    if s.openRounds ≤ 0 then s
    else
      downstreamPhase_sendMany
        { s with
          numberOfNonAckedDownstreamPackets :=
            s.numberOfNonAckedDownstreamPackets - 1,
          openRounds := s.openRounds - 1 }

/-- A relay execution from the initial state (counter 0, nothing open). -/
def relayRun (w0 : Int) (events : List RelayEvent) : WindowState :=
  events.foldl relayStep
    { WindowSize := w0, numberOfNonAckedDownstreamPackets := 0,
      openRounds := 0, communicating := false }

/-- The inductive window invariant: a sane window, a nonnegative counter
equal to the number of open rounds, the counter within the window, and no
open round before COMMUNICATING. -/
def WindowInv (s : WindowState) : Prop :=
  1 ≤ s.WindowSize ∧
  0 ≤ s.numberOfNonAckedDownstreamPackets ∧
  s.numberOfNonAckedDownstreamPackets = s.openRounds ∧
  s.numberOfNonAckedDownstreamPackets ≤ s.WindowSize ∧
  (s.communicating = false → s.openRounds = 0)

theorem relayStep_windowInv (s : WindowState) (e : RelayEvent)
    (hs : WindowInv s)
    (he : ∀ w, e = RelayEvent.paramsAccepted w → 1 ≤ w) :
    WindowInv (relayStep s e) := by
  obtain ⟨h1, h2, h3, h4, h5⟩ := hs
  cases e with
  | paramsAccepted w =>
    have hw : 1 ≤ w := he w rfl
    exact ⟨hw, le_refl 0, rfl, by show (0 : Int) ≤ w; omega, fun _ => rfl⟩
  | shuffleSigsDone =>
    show WindowInv (if s.communicating then s else _)
    by_cases hc : s.communicating
    · rw [if_pos hc]
      exact ⟨h1, h2, h3, h4, h5⟩
    · rw [if_neg hc]
      have hzero : s.openRounds = 0 := h5 (by simpa using hc)
      refine ⟨h1, ?_, ?_, ?_, ?_⟩
      · show (0 : Int) ≤ 1
        omega
      · show (1 : Int) = s.openRounds + 1
        omega
      · show (1 : Int) ≤ s.WindowSize
        exact h1
      · intro hf
        exact Bool.noConfusion hf
  | roundComplete =>
    show WindowInv (if s.openRounds ≤ 0 then s else _)
    by_cases ho : s.openRounds ≤ 0
    · rw [if_pos ho]
      exact ⟨h1, h2, h3, h4, h5⟩
    · rw [if_neg ho]
      have hcomm : s.communicating = true := by
        rcases Bool.eq_false_or_eq_true s.communicating with ht | hf
        · exact ht
        · exact absurd (h5 hf) (by omega)
      unfold downstreamPhase_sendMany
      dsimp only
      by_cases hlt : s.numberOfNonAckedDownstreamPackets - 1 < s.WindowSize
      · rw [if_pos hlt]
        refine ⟨h1, ?_, ?_, ?_, ?_⟩
        · show (0 : Int) ≤ s.numberOfNonAckedDownstreamPackets - 1 +
            (s.WindowSize - (s.numberOfNonAckedDownstreamPackets - 1))
          omega
        · show s.numberOfNonAckedDownstreamPackets - 1 +
            (s.WindowSize - (s.numberOfNonAckedDownstreamPackets - 1)) =
              s.openRounds - 1 +
                (s.WindowSize - (s.numberOfNonAckedDownstreamPackets - 1))
          omega
        · show s.numberOfNonAckedDownstreamPackets - 1 +
            (s.WindowSize - (s.numberOfNonAckedDownstreamPackets - 1)) ≤
              s.WindowSize
          omega
        · show s.communicating = false → _
          rw [hcomm]
          intro hf
          exact Bool.noConfusion hf
      · rw [if_neg hlt]
        refine ⟨h1, ?_, ?_, ?_, ?_⟩
        · show (0 : Int) ≤ s.numberOfNonAckedDownstreamPackets - 1 + 0
          omega
        · show s.numberOfNonAckedDownstreamPackets - 1 + 0 =
            s.openRounds - 1 + 0
          omega
        · show s.numberOfNonAckedDownstreamPackets - 1 + 0 ≤ s.WindowSize
          omega
        · show s.communicating = false → _
          rw [hcomm]
          intro hf
          exact Bool.noConfusion hf

/--
**C8.** In every state reachable by relay events whose accepted window sizes
are at least 1, `numberOfNonAckedDownstreamPackets` lies in
`[0, WindowSize]`: it starts at 0, is set to 1 on entering COMMUNICATING,
each downstream send increments it only while strictly below `WindowSize`
(the `sendMany` loop guard), and each round finalization decrements it by
exactly 1.
-/
theorem nonAcked_within_window (w0 : Int) (events : List RelayEvent)
    (hw0 : 1 ≤ w0)
    (hev : ∀ e ∈ events, ∀ w, e = RelayEvent.paramsAccepted w → 1 ≤ w) :
    0 ≤ (relayRun w0 events).numberOfNonAckedDownstreamPackets ∧
    (relayRun w0 events).numberOfNonAckedDownstreamPackets ≤
      (relayRun w0 events).WindowSize := by
  have main : ∀ (evs : List RelayEvent) (s : WindowState), WindowInv s →
      (∀ e ∈ evs, ∀ w, e = RelayEvent.paramsAccepted w → 1 ≤ w) →
      WindowInv (evs.foldl relayStep s) := by
    intro evs
    induction evs with
    | nil => exact fun s hs _ => hs
    | cons e evs ih =>
      intro s hs hev2
      exact ih (relayStep s e)
        (relayStep_windowInv s e hs (hev2 e (by simp)))
        (fun q hq => hev2 q (by simp [hq]))
  have h := main events
    { WindowSize := w0, numberOfNonAckedDownstreamPackets := 0,
      openRounds := 0, communicating := false }
    ⟨hw0, le_refl 0, rfl, by show (0 : Int) ≤ w0; omega, fun _ => rfl⟩ hev
  exact ⟨h.2.1, h.2.2.2.1⟩

/-- Witness for C8: window 2, entering COMMUNICATING and completing two
rounds. -/
theorem nonAcked_within_window_witness :
    0 ≤ (relayRun 2 [RelayEvent.shuffleSigsDone, RelayEvent.roundComplete,
          RelayEvent.roundComplete]).numberOfNonAckedDownstreamPackets ∧
    (relayRun 2 [RelayEvent.shuffleSigsDone, RelayEvent.roundComplete,
        RelayEvent.roundComplete]).numberOfNonAckedDownstreamPackets ≤
      (relayRun 2 [RelayEvent.shuffleSigsDone, RelayEvent.roundComplete,
        RelayEvent.roundComplete]).WindowSize :=
  nonAcked_within_window 2 _ (by decide)
    (by
      intro e he w hew
      simp only [List.mem_cons, List.not_mem_nil, or_false] at he
      rcases he with h | h | h <;> subst h <;> cases hew)

/-! ## C7: the trustee rate limiter (spec-modelled) -/

/-- Modelled from the spec: the rate-limiting component installed by
`AddRateLimiter` on the BufferableRoundManager, whose implementation is not
under src/.  Spec §4.5: per trustee, track the number of buffered ciphers
ahead of `currentRound`; when the count exceeds HIGH invoke
`stopFn(trusteeId)`, when it drops below LOW invoke `resumeFn(trusteeId)`.
The `stopFn`/`resumeFn` closures are registered in
`Received_ALL_ALL_PARAMETERS` (src/prifi-lib/relay/relay.go, lines 166-178)
and send `REL_TRU_TELL_RATE_CHANGE` with `WindowCapacity` 0 and 1; `msgs`
records the capacities sent to this trustee, newest first.  One such state
exists per trustee, independently. -/
structure RateLimiterState where
  lowBound : Int
  highBound : Int
  bufferCount : Int
  stopped : Bool
  msgs : List Int
  deriving Repr, DecidableEq

/-- Modelled from the spec: after each buffer-count change, send a stop when
the count exceeds HIGH (once, until resumed), and a resume with capacity 1
when the count drops below LOW while stopped. -/
def rateCheck (s : RateLimiterState) : RateLimiterState :=
  if s.bufferCount > s.highBound ∧ ¬ s.stopped then
    { s with stopped := true, msgs := 0 :: s.msgs }
  else if s.bufferCount < s.lowBound ∧ s.stopped then
    { s with stopped := false, msgs := 1 :: s.msgs }
  else s

/-- Buffer-count events for one trustee: a cipher buffered ahead of the
current round, or a round advance consuming one buffered cipher. -/
inductive RateEvent
  | cipherBuffered
  | roundAdvanced
  deriving Repr, DecidableEq

def rateStep (s : RateLimiterState) (e : RateEvent) : RateLimiterState :=
  match e with
  | RateEvent.cipherBuffered => rateCheck { s with bufferCount := s.bufferCount + 1 }
  | RateEvent.roundAdvanced => rateCheck { s with bufferCount := s.bufferCount - 1 }

/-- A rate-limiter execution from the initial state (no ciphers buffered,
not stopped, nothing sent). -/
def rateRun (low high : Int) (events : List RateEvent) : RateLimiterState :=
  events.foldl rateStep
    { lowBound := low, highBound := high, bufferCount := 0,
      stopped := false, msgs := [] }

/-- Capacity-0 messages sent after the most recent capacity-1 message. -/
def stopsSinceLastResume (msgs : List Int) : Nat :=
  (msgs.takeWhile (fun m => m != 1)).count 0

/-- The inductive rate-limiter invariant: sane bounds, the `stopped` flag
tracks whether a stop was sent since the last resume, and a count above
HIGH implies stopped. -/
def RateInv (s : RateLimiterState) : Prop :=
  s.lowBound ≤ s.highBound ∧
  (s.stopped = true ↔ 1 ≤ stopsSinceLastResume s.msgs) ∧
  (s.bufferCount > s.highBound → s.stopped = true)

theorem stopsSinceLastResume_stop (msgs : List Int) :
    1 ≤ stopsSinceLastResume (0 :: msgs) := by
  unfold stopsSinceLastResume
  rw [List.takeWhile_cons]
  simp [List.count_cons]

theorem stopsSinceLastResume_resume (msgs : List Int) :
    stopsSinceLastResume (1 :: msgs) = 0 := by
  unfold stopsSinceLastResume
  rw [List.takeWhile_cons]
  simp

theorem rateCheck_inv (s : RateLimiterState)
    (hlh : s.lowBound ≤ s.highBound)
    (hflag : s.stopped = true ↔ 1 ≤ stopsSinceLastResume s.msgs) :
    RateInv (rateCheck s) := by
  unfold rateCheck
  by_cases h1 : s.bufferCount > s.highBound ∧ ¬ s.stopped
  · rw [if_pos h1]
    refine ⟨hlh, ?_, fun _ => rfl⟩
    constructor
    · intro _
      exact stopsSinceLastResume_stop s.msgs
    · intro _
      rfl
  · rw [if_neg h1]
    by_cases h2 : s.bufferCount < s.lowBound ∧ s.stopped
    · rw [if_pos h2]
      refine ⟨hlh, ?_, ?_⟩
      · constructor
        · intro hf
          exact Bool.noConfusion hf
        · intro hcount
          have hcount2 : 1 ≤ stopsSinceLastResume (1 :: s.msgs) := hcount
          have hz := stopsSinceLastResume_resume s.msgs
          exfalso
          omega
      · intro hcnt
        exfalso
        have hc2 := h2.1
        have : s.bufferCount > s.highBound := hcnt
        omega
    · rw [if_neg h2]
      refine ⟨hlh, hflag, ?_⟩
      intro hcnt
      rcases Bool.eq_false_or_eq_true s.stopped with hst | hst
      · exact hst
      · exfalso
        exact h1 ⟨hcnt, by simp [hst]⟩

theorem rateStep_inv (s : RateLimiterState) (e : RateEvent) (hs : RateInv s) :
    RateInv (rateStep s e) := by
  obtain ⟨hlh, hflag, _⟩ := hs
  cases e with
  | cipherBuffered => exact rateCheck_inv _ hlh hflag
  | roundAdvanced => exact rateCheck_inv _ hlh hflag

/-- `rateCheck` never changes the buffer count. -/
theorem rateCheck_bufferCount (s : RateLimiterState) :
    (rateCheck s).bufferCount = s.bufferCount := by
  unfold rateCheck
  by_cases h1 : s.bufferCount > s.highBound ∧ ¬ s.stopped
  · rw [if_pos h1]
  · rw [if_neg h1]
    by_cases h2 : s.bufferCount < s.lowBound ∧ s.stopped
    · rw [if_pos h2]
    · rw [if_neg h2]

/-- When stopped, a step that brings the count below LOW emits a capacity-1
rate-change message at that very step. -/
theorem rateStep_resume (s : RateLimiterState) (e : RateEvent)
    (hst : s.stopped = true)
    (hlow : (rateStep s e).bufferCount < s.lowBound) :
    (rateStep s e).msgs = 1 :: s.msgs := by
  cases e with
  | cipherBuffered =>
    have hcnt : s.bufferCount + 1 < s.lowBound := by
      have hr := rateCheck_bufferCount { s with bufferCount := s.bufferCount + 1 }
      have hlow2 : (rateCheck { s with bufferCount := s.bufferCount + 1 }).bufferCount <
          s.lowBound := hlow
      rw [hr] at hlow2
      exact hlow2
    show (rateCheck { s with bufferCount := s.bufferCount + 1 }).msgs = 1 :: s.msgs
    unfold rateCheck
    rw [if_neg (by simp [hst]), if_pos (by exact ⟨hcnt, hst⟩)]
  | roundAdvanced =>
    have hcnt : s.bufferCount - 1 < s.lowBound := by
      have hr := rateCheck_bufferCount { s with bufferCount := s.bufferCount - 1 }
      have hlow2 : (rateCheck { s with bufferCount := s.bufferCount - 1 }).bufferCount <
          s.lowBound := hlow
      rw [hr] at hlow2
      exact hlow2
    show (rateCheck { s with bufferCount := s.bufferCount - 1 }).msgs = 1 :: s.msgs
    unfold rateCheck
    rw [if_neg (by simp [hst]), if_pos (by exact ⟨hcnt, hst⟩)]

/--
**C7.** For one trustee's rate limiter with LOW ≤ HIGH, in every reachable
state: whenever the number of ciphers buffered ahead of the current round
exceeds HIGH, at least one `REL_TRU_TELL_RATE_CHANGE` with
`WindowCapacity = 0` has been sent to that trustee since the last resume;
and from any stopped reachable state, a step that drops the count below LOW
sends that trustee a `REL_TRU_TELL_RATE_CHANGE` with `WindowCapacity = 1`.
-/
theorem rate_limiter_stop_resume (low high : Int) (events : List RateEvent)
    (hlh : low ≤ high) (hh : 0 ≤ high) :
    ((rateRun low high events).bufferCount > (rateRun low high events).highBound →
      (rateRun low high events).stopped = true ∧
      1 ≤ stopsSinceLastResume (rateRun low high events).msgs) ∧
    (∀ e : RateEvent, (rateRun low high events).stopped = true →
      (rateStep (rateRun low high events) e).bufferCount <
        (rateRun low high events).lowBound →
      (rateStep (rateRun low high events) e).msgs =
        1 :: (rateRun low high events).msgs) := by
  have main : ∀ (evs : List RateEvent) (s : RateLimiterState), RateInv s →
      RateInv (evs.foldl rateStep s) := by
    intro evs
    induction evs with
    | nil => exact fun s hs => hs
    | cons e evs ih =>
      intro s hs
      exact ih (rateStep s e) (rateStep_inv s e hs)
  have h := main events
    { lowBound := low, highBound := high, bufferCount := 0,
      stopped := false, msgs := [] }
    ⟨hlh, by simp [stopsSinceLastResume],
      by
        intro h2
        have h3 : (0 : Int) > high := h2
        omega⟩
  refine ⟨?_, ?_⟩
  · intro hcnt
    exact ⟨h.2.2 hcnt, h.2.1.mp (h.2.2 hcnt)⟩
  · intro e hst hlow
    exact rateStep_resume _ e hst hlow

/-- Witness for C7: LOW 3, HIGH 5; six buffered ciphers trip the stop, then
the count dropping to 2 triggers the resume. -/
theorem rate_limiter_stop_resume_witness :
    ((rateRun 3 5 (List.replicate 6 RateEvent.cipherBuffered)).bufferCount >
        (rateRun 3 5 (List.replicate 6 RateEvent.cipherBuffered)).highBound →
      (rateRun 3 5 (List.replicate 6 RateEvent.cipherBuffered)).stopped = true ∧
      1 ≤ stopsSinceLastResume
        (rateRun 3 5 (List.replicate 6 RateEvent.cipherBuffered)).msgs) ∧
    (∀ e : RateEvent,
      (rateRun 3 5 (List.replicate 6 RateEvent.cipherBuffered)).stopped = true →
      (rateStep (rateRun 3 5 (List.replicate 6 RateEvent.cipherBuffered)) e).bufferCount <
        (rateRun 3 5 (List.replicate 6 RateEvent.cipherBuffered)).lowBound →
      (rateStep (rateRun 3 5 (List.replicate 6 RateEvent.cipherBuffered)) e).msgs =
        1 :: (rateRun 3 5 (List.replicate 6 RateEvent.cipherBuffered)).msgs) :=
  rate_limiter_stop_resume 3 5 (List.replicate 6 RateEvent.cipherBuffered)
    (by decide) (by decide)

end PriFi
